import Mathlib

/-!
Verification development for the quantis trading-engine core
(`src/services/trading-engine/src/main/cpp`).

The C++ sources are shallowly embedded: `double` prices are modelled as `Rat`
(the verified claims only use comparisons, `min`/`max` and exact subtraction of
the stored values, which the embedding mirrors), C++ `long` as `Int`, `size_t`
counters as `Nat` with explicit `% 2^64` wraparound, fallible operations return
`Bool × state` or `Option`, and the `shared_mutex`-guarded methods are given
their sequential (single-threaded) semantics.  `std::map` instances are
modelled as sorted association lists, `std::vector` as `List`, and the
fixed-size arrays of `MarketDataStore.h` as lists of length `MAX_SYMBOLS`.
-/

namespace Quantis

/-! ### List access helpers (array indexing / element update) -/

/-- `nth l i` models `l[i]` (reading slot `i` of an array); `none` when out of
range. -/
def nth {α : Type} : List α → Nat → Option α
  | [], _ => none
  | x :: _, 0 => some x
  | _ :: xs, n + 1 => nth xs n

/-- `setNth l i a` models the in-place write `l[i] = a`; out-of-range writes
are dropped (they cannot arise in the modelled code paths). -/
def setNth {α : Type} : List α → Nat → α → List α
  | [], _, _ => []
  | _ :: xs, 0, a => a :: xs
  | x :: xs, n + 1, a => x :: setNth xs n a

theorem nth_replicate {α : Type} (a : α) :
    ∀ (n i : Nat), i < n → nth (List.replicate n a) i = some a := by
  intro n
  induction n with
  | zero => intro i h; omega
  | succ m ih =>
    intro i h
    cases i with
    | zero => rfl
    | succ j => exact ih j (by omega)

theorem length_setNth {α : Type} (a : α) :
    ∀ (l : List α) (i : Nat), (setNth l i a).length = l.length := by
  intro l
  induction l with
  | nil => intro i; rfl
  | cons x xs ih =>
    intro i
    cases i with
    | zero => rfl
    | succ j => simpa [setNth] using ih j

theorem nth_setNth_eq {α : Type} (a : α) :
    ∀ (l : List α) (i : Nat), i < l.length → nth (setNth l i a) i = some a := by
  intro l
  induction l with
  | nil => intro i h; simp at h
  | cons x xs ih =>
    intro i h
    cases i with
    | zero => rfl
    | succ j => exact ih j (by simpa using h)

theorem nth_setNth_ne {α : Type} (a : α) :
    ∀ (l : List α) (i j : Nat), i ≠ j → nth (setNth l i a) j = nth l j := by
  intro l
  induction l with
  | nil => intro i j _; cases i <;> rfl
  | cons x xs ih =>
    intro i j hne
    cases i with
    | zero =>
      cases j with
      | zero => exact absurd rfl hne
      | succ j' => rfl
    | succ i' =>
      cases j with
      | zero => rfl
      | succ j' => exact ih i' j' (by omega)

/-! ### Order book data model (`OrderBook.h`) -/

/-- `quantis::Order` (OrderBook.h).  The `timestamp`/`isActive` fields are
never read by the modelled operations and are elided. -/
structure Order where
  orderId : String
  userId : String
  symbol : String
  side : String
  quantity : Int
  price : Rat
  deriving DecidableEq, Repr

/-- `quantis::Trade` (OrderBook.h).  `tradeId` is derived from the wall clock
in the source (`"trade_" + std::to_string(std::time(nullptr))`) and is
modelled by its constant prefix; `executedAt` is elided. -/
structure Trade where
  tradeId : String
  orderId : String
  userId : String
  symbol : String
  side : String
  quantity : Int
  price : Rat
  totalValue : Rat
  deriving DecidableEq, Repr

/-- `quantis::OrderBook` state: the two `std::map` sides (sorted association
lists of price levels, each level a FIFO `std::vector` of orders), the
`orders_` id-lookup map, and the atomic counters. -/
structure OrderBook where
  buyOrders : List (Rat × List Order)
  sellOrders : List (Rat × List Order)
  orders : List (String × Order)
  totalOrders : Nat
  totalVolume : Nat
  lastTradePrice : Rat
  bestBid : Rat
  bestAsk : Rat
  deriving DecidableEq, Repr

/-- A freshly constructed `OrderBook` (all atomics zero-initialised). -/
def emptyBook : OrderBook :=
  { buyOrders := [], sellOrders := [], orders := [],
    totalOrders := 0, totalVolume := 0,
    lastTradePrice := 0, bestBid := 0, bestAsk := 0 }

/-- `orders_[k] = v`: `std::map` insert-or-assign via `operator[]`. -/
def mapSet : List (String × Order) → String → Order → List (String × Order)
  | [], k, v => [(k, v)]
  | (k', v') :: rest, k, v =>
    if k = k' then (k, v) :: rest else (k', v') :: mapSet rest k v

/-- `orders_.find(k)`: `std::map` lookup. -/
def mapGet : List (String × Order) → String → Option Order
  | [], _ => none
  | (k', v') :: rest, k => if k = k' then some v' else mapGet rest k

/-- `orders_.erase(it)`: `std::map` erase by key. -/
def mapErase : List (String × Order) → String → List (String × Order)
  | [], _ => []
  | (k', v') :: rest, k =>
    if k = k' then rest else (k', v') :: mapErase rest k

/-- `sideMap[price].push_back(order)`: find (or create) the price level of a
sorted `std::map` side and append the order to its FIFO queue.  `before p q`
is the map's comparator (`std::greater` for the BUY side, `std::less` for the
SELL side). -/
def levelAdd (before : Rat → Rat → Prop) [DecidableRel before] :
    List (Rat × List Order) → Rat → Order → List (Rat × List Order)
  | [], p, o => [(p, [o])]
  | (q, os) :: rest, p, o =>
    if p = q then (q, os ++ [o]) :: rest
    else if before p q then (p, [o]) :: (q, os) :: rest
    else (q, os) :: levelAdd before rest p o

/-- `removeOrder`'s side cleanup: find the level at `price`, erase the order
(`std::remove` on the level's vector), and erase the level when it empties.
Orders are identified structurally, which matches the source's
`shared_ptr` identity because `orderId`s are unique in the modelled runs. -/
def eraseFromLevels : List (Rat × List Order) → Rat → Order → List (Rat × List Order)
  | [], _, _ => []
  | (q, os) :: rest, price, o =>
    if price = q then
      let os' := os.filter (fun m => m ≠ o)
      if os' = [] then rest else (q, os') :: rest
    else (q, os) :: eraseFromLevels rest price o

/-- Two's-complement conversion of a C++ `long` to `size_t`
(`fetch_add(order->quantity)` on an `atomic<size_t>`). -/
def toSizeT (q : Int) : Nat := (q % (2 ^ 64 : Int)).toNat

/-- `addOrder` step 1 (OrderBook.cpp:22): `orders_[order->orderId] = order`. -/
def storeOrder (b : OrderBook) (o : Order) : OrderBook :=
  { b with orders := mapSet b.orders o.orderId o }

/-- `addOrder` step 2 (OrderBook.cpp:25-34): append to the side's price level
and fold the price into the cached `bestBid_`/`bestAsk_` atomic with
`max`/`min`. -/
def sideInsert (b : OrderBook) (o : Order) : OrderBook :=
  if o.side = "BUY" then
    { b with buyOrders := levelAdd (fun p q => p > q) b.buyOrders o.price o,
             bestBid := max b.bestBid o.price }
  else if o.side = "SELL" then
    { b with sellOrders := levelAdd (fun p q => p < q) b.sellOrders o.price o,
             bestAsk := min b.bestAsk o.price }
  else b

/-- `addOrder` step 3 (OrderBook.cpp:36-37): `totalOrders_.fetch_add(1)` and
`totalVolume_.fetch_add(order->quantity)` on `atomic<size_t>`. -/
def bumpCounters (b : OrderBook) (o : Order) : OrderBook :=
  { b with totalOrders := (b.totalOrders + 1) % 2 ^ 64,
           totalVolume := (b.totalVolume + toSizeT o.quantity) % 2 ^ 64 }

/-- `OrderBook::addOrder` (OrderBook.cpp:15-49): stores the order in
`orders_`, appends it to its side's price level, folds the price into the
cached `bestBid_`/`bestAsk_` atomic with `max`/`min`, and bumps the counters.
No validation is performed; the `catch` branch (allocation failure) is
unreachable in the model, so the result is always `true`. -/
def addOrder (b : OrderBook) (o : Order) : Bool × OrderBook :=
  (true, bumpCounters (sideInsert (storeOrder b o) o) o)

/-- `OrderBook::removeOrder` (OrderBook.cpp:51-105): unknown ids return
`false` with no state change; otherwise the order is removed from `orders_`
and from its side, and the counters are decremented (`fetch_sub` on
`size_t`, hence the wraparound). -/
def removeOrder (b : OrderBook) (orderId : String) : Bool × OrderBook :=
  match mapGet b.orders orderId with
  | none => (false, b)
  | some o =>
    let b1 := { b with orders := mapErase b.orders orderId }
    let b2 :=
      if o.side = "BUY" then
        { b1 with buyOrders := eraseFromLevels b1.buyOrders o.price o }
      else if o.side = "SELL" then
        { b1 with sellOrders := eraseFromLevels b1.sellOrders o.price o }
      else b1
    (true,
     { b2 with totalOrders := (b2.totalOrders + (2 ^ 64 - 1)) % 2 ^ 64,
               totalVolume := (b2.totalVolume + (2 ^ 64 - toSizeT o.quantity)) % 2 ^ 64 })

/-- `OrderBook::updateOrder` (OrderBook.cpp:107-132): unknown ids return
`false` with no state change; otherwise remove-then-add.  (The source
re-enters its non-reentrant write lock on the known-id path; the model gives
that path its sequential remove-then-add semantics.) -/
def updateOrder (b : OrderBook) (o : Order) : Bool × OrderBook :=
  match mapGet b.orders o.orderId with
  | none => (false, b)
  | some _ =>
    let b1 := (removeOrder b o.orderId).snd
    addOrder b1 o

/-- Quantity of the front order of a level's FIFO queue
(`bestAskIt->second[0]->quantity`).  The modelled books never hold empty
levels, so the `[]` default is unreachable there. -/
def frontQty (os : List Order) : Int :=
  match os with
  | [] => 0
  | o :: _ => o.quantity

/-- The single `Trade` record built by `matchBuyOrder`/`matchSellOrder`. -/
def mkTrade (o : Order) (p : Rat) (q : Int) : Trade :=
  { tradeId := "trade_", orderId := o.orderId, userId := o.userId,
    symbol := o.symbol, side := o.side, quantity := q, price := p,
    totalValue := (q : Rat) * p }

/-- `OrderBook::matchBuyOrder` (OrderBook.cpp:163-195): if the SELL side is
non-empty and the taker's price reaches the best ask, emit one trade at the
best ask price for `min(taker, front maker)` quantity; the book itself is not
modified. -/
def matchBuyOrder (b : OrderBook) (o : Order) : List Trade :=
  match b.sellOrders with
  | [] => []
  | (bestAskPrice, level) :: _ =>
    if o.price ≥ bestAskPrice then
      [mkTrade o bestAskPrice (min o.quantity (frontQty level))]
    else []

/-- `OrderBook::matchSellOrder` (OrderBook.cpp:197-229): mirror image against
the best bid. -/
def matchSellOrder (b : OrderBook) (o : Order) : List Trade :=
  match b.buyOrders with
  | [] => []
  | (bestBidPrice, level) :: _ =>
    if o.price ≤ bestBidPrice then
      [mkTrade o bestBidPrice (min o.quantity (frontQty level))]
    else []

/-- The side dispatch of `OrderBook::matchOrder` (OrderBook.cpp:140-147). -/
def matchTrades (b : OrderBook) (o : Order) : List Trade :=
  if o.side = "BUY" then matchBuyOrder b o
  else if o.side = "SELL" then matchSellOrder b o
  else []

/-- `OrderBook::matchOrder` (OrderBook.cpp:134-161): dispatch on side, then
store the last trade's price in the `lastTradePrice_` atomic. -/
def matchOrder (b : OrderBook) (o : Order) : List Trade × OrderBook :=
  match (matchTrades b o).getLast? with
  | none => (matchTrades b o, b)
  | some t => (matchTrades b o, { b with lastTradePrice := t.price })

/-- `OrderBook::getBestBid` (OrderBook.h:112): the cached atomic. -/
def getBestBid (b : OrderBook) : Rat := b.bestBid

/-- `OrderBook::getBestAsk` (OrderBook.h:113): the cached atomic. -/
def getBestAsk (b : OrderBook) : Rat := b.bestAsk

/-- `OrderBook::getSpread` (OrderBook.cpp:231-242). -/
def getSpread (b : OrderBook) : Rat :=
  if b.bestBid > 0 ∧ b.bestAsk > 0 then b.bestAsk - b.bestBid else 0

/-- Best bid price of the resting structure (`buyOrders_.begin()`), the value
`matchSellOrder` matches against. -/
def bestBidPrice (b : OrderBook) : Option Rat := b.buyOrders.head?.map Prod.fst

/-- Best ask price of the resting structure (`sellOrders_.begin()`), the value
`matchBuyOrder` matches against. -/
def bestAskPrice (b : OrderBook) : Option Rat := b.sellOrders.head?.map Prod.fst

/-! ### Shared order-book lemmas -/

theorem matchOrder_fst (b : OrderBook) (o : Order) :
    (matchOrder b o).fst = matchTrades b o := by
  unfold matchOrder
  cases h : (matchTrades b o).getLast? <;> simp [h]

theorem matchOrder_snd (b : OrderBook) (o : Order) :
    (matchOrder b o).snd.buyOrders = b.buyOrders ∧
    (matchOrder b o).snd.sellOrders = b.sellOrders ∧
    (matchOrder b o).snd.orders = b.orders ∧
    (matchOrder b o).snd.totalOrders = b.totalOrders ∧
    (matchOrder b o).snd.totalVolume = b.totalVolume := by
  unfold matchOrder
  cases h : (matchTrades b o).getLast? <;> simp [h]

theorem mapGet_mapSet_self (m : List (String × Order)) (k : String) (v : Order) :
    mapGet (mapSet m k v) k = some v := by
  induction m with
  | nil => simp [mapSet, mapGet]
  | cons kv rest ih =>
    obtain ⟨k', v'⟩ := kv
    by_cases h : k = k'
    · simp [mapSet, mapGet, h]
    · simp [mapSet, mapGet, h, ih]

theorem sideInsert_buy {b : OrderBook} {o : Order} (h : o.side = "BUY") :
    sideInsert b o =
      { b with buyOrders := levelAdd (fun p q => p > q) b.buyOrders o.price o,
               bestBid := max b.bestBid o.price } := by
  unfold sideInsert
  rw [if_pos h]

theorem sideInsert_sell {b : OrderBook} {o : Order} (h : o.side = "SELL") :
    sideInsert b o =
      { b with sellOrders := levelAdd (fun p q => p < q) b.sellOrders o.price o,
               bestAsk := min b.bestAsk o.price } := by
  have hb : ¬ o.side = "BUY" := by rw [h]; decide
  unfold sideInsert
  rw [if_neg hb, if_pos h]

theorem sideInsert_orders (b : OrderBook) (o : Order) :
    (sideInsert b o).orders = b.orders := by
  unfold sideInsert
  split
  · rfl
  · split <;> rfl

theorem levelAdd_ne_nil (before : Rat → Rat → Prop) [DecidableRel before]
    (l : List (Rat × List Order)) (p : Rat) (o : Order) :
    levelAdd before l p o ≠ [] := by
  cases l with
  | nil => simp [levelAdd]
  | cons hd tl =>
    obtain ⟨q, os⟩ := hd
    unfold levelAdd
    split
    · simp
    · split <;> simp

theorem mem_matchBuyOrder {b : OrderBook} {o : Order} {t : Trade}
    (ht : t ∈ matchBuyOrder b o) :
    ∃ lvl rest, b.sellOrders = lvl :: rest ∧ o.price ≥ lvl.1 ∧
      t = mkTrade o lvl.1 (min o.quantity (frontQty lvl.2)) := by
  rcases hs : b.sellOrders with _ | ⟨⟨p, lvl⟩, rest⟩ <;>
    simp only [matchBuyOrder, hs] at ht
  · simp at ht
  · by_cases hp : o.price ≥ p
    · rw [if_pos hp] at ht
      simp only [List.mem_singleton] at ht
      exact ⟨(p, lvl), rest, rfl, hp, ht⟩
    · rw [if_neg hp] at ht
      simp at ht

theorem mem_matchSellOrder {b : OrderBook} {o : Order} {t : Trade}
    (ht : t ∈ matchSellOrder b o) :
    ∃ lvl rest, b.buyOrders = lvl :: rest ∧ o.price ≤ lvl.1 ∧
      t = mkTrade o lvl.1 (min o.quantity (frontQty lvl.2)) := by
  rcases hs : b.buyOrders with _ | ⟨⟨p, lvl⟩, rest⟩ <;>
    simp only [matchSellOrder, hs] at ht
  · simp at ht
  · by_cases hp : o.price ≤ p
    · rw [if_pos hp] at ht
      simp only [List.mem_singleton] at ht
      exact ⟨(p, lvl), rest, rfl, hp, ht⟩
    · rw [if_neg hp] at ht
      simp at ht

theorem matchTrades_length (b : OrderBook) (o : Order) :
    (matchTrades b o).length ≤ 1 := by
  unfold matchTrades
  split
  · rcases hs : b.sellOrders with _ | ⟨⟨p, lvl⟩, rest⟩ <;>
      simp only [matchBuyOrder, hs]
    · simp
    · split <;> simp
  · split
    · rcases hbo : b.buyOrders with _ | ⟨⟨p, lvl⟩, rest⟩ <;>
        simp only [matchSellOrder, hbo]
      · simp
      · split <;> simp
    · simp

theorem mem_matchTrades {b : OrderBook} {o : Order} {t : Trade}
    (ht : t ∈ matchTrades b o) :
    (o.side = "BUY" ∧ t ∈ matchBuyOrder b o) ∨
    (o.side = "SELL" ∧ t ∈ matchSellOrder b o) := by
  unfold matchTrades at ht
  by_cases h1 : o.side = "BUY"
  · rw [if_pos h1] at ht
    exact Or.inl ⟨h1, ht⟩
  · rw [if_neg h1] at ht
    by_cases h2 : o.side = "SELL"
    · rw [if_pos h2] at ht
      exact Or.inr ⟨h2, ht⟩
    · rw [if_neg h2] at ht
      simp at ht

/-! ### JSON quote decoder (`FastJsonParser.cpp`)

C strings without interior NUL bytes are modelled as `List Char`; a returned
suffix of the input models the `const char *` cursors the source passes
around. -/

/-- `strstr` prefix test used by the substring search. -/
def startsWith : List Char → List Char → Bool
  | [], _ => true
  | _ :: _, [] => false
  | p :: ps, c :: cs => p = c && startsWith ps cs

/-- `strstr(s, pat)`: the suffix of `s` beginning at the first occurrence of
`pat`, or `none`. -/
def findSub (pat : List Char) : List Char → Option (List Char)
  | [] => if startsWith pat [] then some [] else none
  | c :: rest =>
    if startsWith pat (c :: rest) then some (c :: rest) else findSub pat rest

/-- `strchr(s, c)`: the suffix of `s` beginning at the first occurrence of
the character `c`, or `none`. -/
def charSearch (c : Char) : List Char → Option (List Char)
  | [] => none
  | x :: rest => if x = c then some (x :: rest) else charSearch c rest

/-- The common value-extraction scan of `FastJsonParser::extractDouble` /
`extractLong` (FastJsonParser.cpp:88-129, 131-172): locate `"key"`, advance
to the colon, skip the whitespace the source skips (space, tab, newline),
then take characters up to the first `,`/`\x7d`/`]`/`"`.  The final
quote-stripping branch is modelled as in the source; it can never fire,
because the scan already stops at any quote (for an empty scan result the
source's `front()`/`back()` calls read the terminating NUL, which is not a
quote). -/
def extractValueStr (json key : List Char) : Option (List Char) :=
  match findSub ('"' :: key ++ ['"']) json with
  | none => none
  | some keyPos =>
    match charSearch ':' keyPos with
    | none => none
    | some colonPos =>
      let valueStart :=
        (colonPos.drop 1).dropWhile (fun c => c == ' ' || c == '\t' || c == '\n')
      let valueStr :=
        valueStart.takeWhile
          (fun c => !(c == ',' || c == '\x7d' || c == ']' || c == '"'))
      if valueStr.head? = some '"' ∧ valueStr.getLast? = some '"' then
        some ((valueStr.drop 1).dropLast)
      else some valueStr

/-- C-locale `isspace`, used by `std::stod`/`std::stol`. -/
def isSpaceC (c : Char) : Bool :=
  c == ' ' || c == '\t' || c == '\n' || c == '\x0b' || c == '\x0c' || c == '\r'

/-- Value of a digit string, most significant first. -/
def digitsToNat (l : List Char) : Nat :=
  l.foldl (fun acc c => 10 * acc + (c.toNat - 48)) 0

/-- `std::stod` on the decimal inputs the vendor envelope carries: optional
whitespace, optional sign, digits with an optional fractional part; `none`
models the `std::invalid_argument` throw when no digit is found (hex,
infinity and exponent forms never occur in the modelled inputs and are out
of scope). -/
def stodOpt (s : List Char) : Option Rat :=
  let s1 := s.dropWhile isSpaceC
  let sgn : Rat := if s1.head? = some '-' then -1 else 1
  let s2 := if s1.head? = some '-' ∨ s1.head? = some '+' then s1.drop 1 else s1
  let intPart := s2.takeWhile Char.isDigit
  let rest := s2.dropWhile Char.isDigit
  let fracPart :=
    match rest with
    | '.' :: r2 => r2.takeWhile Char.isDigit
    | _ => []
  if intPart = [] ∧ fracPart = [] then none
  else
    some (sgn * ((digitsToNat intPart : Rat) +
      (digitsToNat fracPart : Rat) / (10 : Rat) ^ fracPart.length))

/-- `std::stol` on decimal inputs: optional whitespace, optional sign, at
least one digit; `none` models the throw. -/
def stolOpt (s : List Char) : Option Int :=
  let s1 := s.dropWhile isSpaceC
  let sgn : Int := if s1.head? = some '-' then -1 else 1
  let s2 := if s1.head? = some '-' ∨ s1.head? = some '+' then s1.drop 1 else s1
  let intPart := s2.takeWhile Char.isDigit
  if intPart = [] then none else some (sgn * (digitsToNat intPart : Int))

/-- `FastJsonParser::extractDouble`: the scan followed by `std::stod`. -/
def extractDouble (json key : List Char) : Option Rat :=
  (extractValueStr json key).bind stodOpt

/-- `FastJsonParser::extractLong`: the scan followed by `std::stol`. -/
def extractLong (json key : List Char) : Option Int :=
  (extractValueStr json key).bind stolOpt

/-- `FastJsonParser::MarketData` (FastJsonParser.h:35-58); the `timestamp`
wall-clock field is elided. -/
structure MarketData where
  symbol : String
  bestBid : Rat := 0
  bestAsk : Rat := 0
  lastPrice : Rat := 0
  openPrice : Rat := 0
  high : Rat := 0
  low : Rat := 0
  volume : Int := 0
  isValid : Bool := false
  deriving DecidableEq, Repr

/-- `FastJsonParser::parseAlphaVantage` (FastJsonParser.cpp:10-69): find the
`"Global Quote"` section, extract the five numeric fields in source order
(the first failed extraction throws, keeping the fields assigned so far and
leaving `isValid` false), then derive `bestBid = low`, `bestAsk = high` and
set `isValid`. -/
def parseAlphaVantage (symbol jsonResponse : String) : MarketData :=
  let base : MarketData := { symbol := symbol }
  match findSub ("\"Global Quote\"".data) jsonResponse.data with
  | none => base
  | some gq =>
    match extractDouble gq ("02. open".data) with
    | none => base
    | some opn =>
      match extractDouble gq ("03. high".data) with
      | none => { base with openPrice := opn }
      | some hi =>
        match extractDouble gq ("04. low".data) with
        | none => { base with openPrice := opn, high := hi }
        | some lo =>
          match extractDouble gq ("05. price".data) with
          | none => { base with openPrice := opn, high := hi, low := lo }
          | some pr =>
            match extractLong gq ("06. volume".data) with
            | none =>
              { base with openPrice := opn, high := hi, low := lo, lastPrice := pr }
            | some vol =>
              { base with openPrice := opn, high := hi, low := lo, lastPrice := pr,
                          volume := vol, bestBid := lo, bestAsk := hi, isValid := true }

/-- `FastJsonParser::parseAlphaVantageSafe` (FastJsonParser.cpp:71-86):
domain validation on top of the parse. -/
def parseAlphaVantageSafe (symbol jsonResponse : String) : MarketData :=
  let d := parseAlphaVantage symbol jsonResponse
  if d.isValid ∧ (d.lastPrice ≤ 0 ∨ d.volume < 0) then
    { d with isValid := false }
  else d

/-! ### Market data store (`MarketDataStore.h`)

`std::hash<std::string>` is implementation-defined, so every operation takes
the hash function as an explicit parameter `hashFn`; all theorems below hold
for every `hashFn`.  The wall-clock reads
(`high_resolution_clock::now()` in nanoseconds) are passed in as explicit
`now` arguments. -/

/-- `SymbolIndex::SYMBOL_LENGTH` (MarketDataStore.h:49). -/
def SYMBOL_LENGTH : Nat := 8

/-- `MAX_SYMBOLS` (MarketDataStore.h:48 and 129). -/
def MAX_SYMBOLS : Nat := 10000

/-- `UINT32_MAX`, the not-found / table-full sentinel. -/
def INVALID_ID : Nat := 2 ^ 32 - 1

/-- The key bytes a table entry stores for a symbol:
`strncpy(entry.symbol, s.c_str(), SYMBOL_LENGTH - 1)` writes at most 7 bytes
(slot 7 is forced to NUL), and both lookups compare with
`strncmp(entry.symbol, s.c_str(), SYMBOL_LENGTH - 1)`.  For NUL-free symbol
strings this is exactly equality of the 7-byte truncations. -/
def symKey (s : String) : List Char := s.data.take (SYMBOL_LENGTH - 1)

/-- An active `SymbolEntry` (MarketDataStore.h:51-56): its stored key bytes
and its assigned dense index. -/
structure SymbolEntry where
  key : List Char
  index : Nat
  deriving DecidableEq, Repr

/-- `SymbolIndex` (MarketDataStore.h:45-115): the `symbolTable_` array
(`none` models `isActive == false`) and the `nextIndex_` counter. -/
structure SymbolIndex where
  table : List (Option SymbolEntry)
  nextIndex : Nat
  deriving DecidableEq, Repr

/-- A freshly constructed `SymbolIndex` with `n` slots (`n = MAX_SYMBOLS` in
the source). -/
def mkSymbolIndex (n : Nat) : SymbolIndex :=
  ⟨List.replicate n none, 0⟩

/-- The probe loop of `SymbolIndex::getOrCreateIndex`
(MarketDataStore.h:67-92), iteration offset `i`, with `fuel` remaining
iterations (`MAX_SYMBOLS` at the initial call): an inactive slot is acquired
(key stored truncated, next dense index assigned), an active slot whose
first 7 bytes match returns its index, any other active slot advances the
probe; exhaustion returns `INVALID_ID` (table full).  Returns
`(index, table, nextIndex)`. -/
def probeCreate (tbl : List (Option SymbolEntry)) (next : Nat) (key : List Char)
    (start : Nat) : Nat → Nat → Nat × List (Option SymbolEntry) × Nat
  | 0, _ => (INVALID_ID, tbl, next)
  | fuel + 1, i =>
    match nth tbl ((start + i) % tbl.length) with
    | none => (INVALID_ID, tbl, next)
    | some none =>
      (next, setNth tbl ((start + i) % tbl.length) (some ⟨key, next⟩), next + 1)
    | some (some e) =>
      if e.key = key then (e.index, tbl, next)
      else probeCreate tbl next key start fuel (i + 1)

/-- `SymbolIndex::getOrCreateIndex` (MarketDataStore.h:62-95): probe from
`hash(symbol) % MAX_SYMBOLS`. -/
def getOrCreateIndex (S : SymbolIndex) (hashFn : String → Nat) (s : String) :
    Nat × SymbolIndex :=
  ((probeCreate S.table S.nextIndex (symKey s) (hashFn s % S.table.length)
      S.table.length 0).1,
   ⟨(probeCreate S.table S.nextIndex (symKey s) (hashFn s % S.table.length)
       S.table.length 0).2.1,
    (probeCreate S.table S.nextIndex (symKey s) (hashFn s % S.table.length)
       S.table.length 0).2.2⟩)

/-- The probe loop of `SymbolIndex::getIndex` (MarketDataStore.h:101-111):
return the first active slot whose stored bytes match the first 7 bytes of
the probe symbol; inactive slots are skipped, exhaustion returns `none`
(`INVALID_ID` in the source). -/
def probeFind (tbl : List (Option SymbolEntry)) (key : List Char)
    (start : Nat) : Nat → Nat → Option Nat
  | 0, _ => none
  | fuel + 1, i =>
    match nth tbl ((start + i) % tbl.length) with
    | some (some e) =>
      if e.key = key then some e.index else probeFind tbl key start fuel (i + 1)
    | _ => probeFind tbl key start fuel (i + 1)

/-- `SymbolIndex::getIndex` (MarketDataStore.h:97-114). -/
def getIndex (S : SymbolIndex) (hashFn : String → Nat) (s : String) : Nat :=
  match probeFind S.table (symKey s) (hashFn s % S.table.length) S.table.length 0 with
  | none => INVALID_ID
  | some i => i

/-- `quantis::MarketDataSnapshot` (MarketDataStore.h:27-42); the atomic
payload fields (the `padding` member is layout only). -/
structure MarketDataSnapshot where
  bestBid : Rat := 0
  bestAsk : Rat := 0
  lastPrice : Rat := 0
  spread : Rat := 0
  volume : Int := 0
  timestamp : Nat := 0
  sequenceNumber : Nat := 0
  isValid : Bool := false
  deriving DecidableEq, Repr

/-- `quantis::MarketDataStore` (MarketDataStore.h:126-297): the pre-allocated
snapshot array, the symbol index, and the statistics counters. -/
structure MarketDataStore where
  marketData : List MarketDataSnapshot
  symbolIndex : SymbolIndex
  totalUpdates : Nat
  totalReads : Nat
  deriving DecidableEq, Repr

/-- A freshly constructed `MarketDataStore` with `n` slots
(`n = MAX_SYMBOLS` in the source); the constructor clears every `isValid`. -/
def mkMarketDataStore (n : Nat) : MarketDataStore :=
  ⟨List.replicate n {}, mkSymbolIndex n, 0, 0⟩

/-- The snapshot written by `updateMarketData` (MarketDataStore.h:167-185):
all payload fields, `spread = bestAsk − bestBid`, the clock stamp, the
`fetch_add(1)` on the 32-bit `sequenceNumber`, and `isValid = true`. -/
def mkSnapshot (bestBid bestAsk lastPrice : Rat) (volume : Int) (now oldSeq : Nat) :
    MarketDataSnapshot :=
  { bestBid := bestBid, bestAsk := bestAsk, lastPrice := lastPrice,
    spread := bestAsk - bestBid, volume := volume, timestamp := now,
    sequenceNumber := (oldSeq + 1) % 2 ^ 32, isValid := true }

/-- `MarketDataStore::updateMarketData` (MarketDataStore.h:155-189): intern
the symbol (which may mutate the table), fail if the resulting index is out
of range (`index >= MAX_SYMBOLS`, i.e. the sentinel), otherwise overwrite the
slot's snapshot. -/
def updateMarketData (st : MarketDataStore) (hashFn : String → Nat) (now : Nat)
    (symbol : String) (bestBid bestAsk lastPrice : Rat) (volume : Int) :
    Bool × MarketDataStore :=
  if (getOrCreateIndex st.symbolIndex hashFn symbol).fst ≥ st.marketData.length then
    (false, { st with symbolIndex := (getOrCreateIndex st.symbolIndex hashFn symbol).snd })
  else
    (true,
     { st with
       symbolIndex := (getOrCreateIndex st.symbolIndex hashFn symbol).snd,
       marketData :=
         setNth st.marketData (getOrCreateIndex st.symbolIndex hashFn symbol).fst
           (mkSnapshot bestBid bestAsk lastPrice volume now
             ((nth st.marketData (getOrCreateIndex st.symbolIndex hashFn symbol).fst).getD
               {}).sequenceNumber),
       totalUpdates := st.totalUpdates + 1 })

/-- The field tuple `getMarketData` copies out through its reference
parameters: `(bestBid, bestAsk, lastPrice, spread, volume, timestamp)`. -/
def readTuple (snap : MarketDataSnapshot) : Rat × Rat × Rat × Rat × Int × Nat :=
  (snap.bestBid, snap.bestAsk, snap.lastPrice, snap.spread, snap.volume, snap.timestamp)

/-- `MarketDataStore::getMarketData` (MarketDataStore.h:195-223): look the
symbol up, fail on out-of-range index or an invalid snapshot, else return
the six observable fields (and bump the reads counter). -/
def getMarketData (st : MarketDataStore) (hashFn : String → Nat) (symbol : String) :
    Option (Rat × Rat × Rat × Rat × Int × Nat) × MarketDataStore :=
  if getIndex st.symbolIndex hashFn symbol ≥ st.marketData.length then (none, st)
  else if ((nth st.marketData (getIndex st.symbolIndex hashFn symbol)).getD {}).isValid
      = false then
    (none, st)
  else
    (some (readTuple ((nth st.marketData (getIndex st.symbolIndex hashFn symbol)).getD {})),
     { st with totalReads := st.totalReads + 1 })

/-- Timestamp of a successful read's tuple (`0` for a failed read); used to
state per-symbol timestamp monotonicity. -/
def tupleTime (r : Option (Rat × Rat × Rat × Rat × Int × Nat)) : Nat :=
  match r with
  | none => 0
  | some t => t.2.2.2.2.2

/-! ### Probe-loop lemmas for the symbol index -/

theorem nth_lt_length {α : Type} :
    ∀ {l : List α} {i : Nat} {a : α}, nth l i = some a → i < l.length := by
  intro l
  induction l with
  | nil => intro i a h; simp [nth] at h
  | cons x xs ih =>
    intro i a h
    cases i with
    | zero => simp
    | succ j =>
      simp only [nth] at h
      simpa using Nat.succ_lt_succ (ih h)

theorem nth_eq_none_of_ge {α : Type} :
    ∀ (l : List α) (i : Nat), l.length ≤ i → nth l i = none := by
  intro l
  induction l with
  | nil => intro i _; cases i <;> rfl
  | cons x xs ih =>
    intro i h
    cases i with
    | zero => simp at h
    | succ j => exact ih j (by simpa using h)

/-- Offsets `j < i` of one probe pass hit a different slot than offset `i`
(all offsets of a pass lie within one period of the table length). -/
theorem probe_idx_ne (start len j i : Nat) (hji : j < i) (hil : i - j < len) :
    (start + j) % len ≠ (start + i) % len := by
  intro h
  have hmod : Nat.ModEq len (start + j) (start + i) := h
  have hdvd : len ∣ start + i - (start + j) := (Nat.modEq_iff_dvd' (by omega)).mp hmod
  have heq : start + i - (start + j) = i - j := by omega
  rw [heq] at hdvd
  have hle := Nat.le_of_dvd (by omega) hdvd
  omega

/-- Characterisation of a non-exhausted `getOrCreateIndex` probe: the slot it
settles on (acquired or matched) is found again by `getIndex`'s probe over
the resulting table, a repeated `getOrCreateIndex` probe is stable, the table
length is preserved, and slots visited before the settling offset are
untouched. -/
theorem probeCreate_spec (tbl : List (Option SymbolEntry)) (next : Nat)
    (key : List Char) (start : Nat) :
    ∀ (fuel i r : Nat) (tbl' : List (Option SymbolEntry)) (nx' : Nat),
      fuel + i ≤ tbl.length →
      probeCreate tbl next key start fuel i = (r, tbl', nx') →
      (r = INVALID_ID ∧ tbl' = tbl ∧ nx' = next) ∨
      (probeFind tbl' key start fuel i = some r ∧
       probeCreate tbl' nx' key start fuel i = (r, tbl', nx') ∧
       tbl'.length = tbl.length ∧
       ∀ j, j < i → nth tbl' ((start + j) % tbl.length) = nth tbl ((start + j) % tbl.length)) := by
  intro fuel
  induction fuel with
  | zero =>
    intro i r tbl' nx' hle heq
    have heq' : ((INVALID_ID, tbl, next) : Nat × List (Option SymbolEntry) × Nat)
        = (r, tbl', nx') := heq
    simp only [Prod.mk.injEq] at heq'
    exact Or.inl ⟨heq'.1.symm, heq'.2.1.symm, heq'.2.2.symm⟩
  | succ f ih =>
    intro i r tbl' nx' hle heq
    have hi : i < tbl.length := by omega
    rcases hslot : nth tbl ((start + i) % tbl.length) with _ | (_ | e)
    · have heq' : ((INVALID_ID, tbl, next) : Nat × List (Option SymbolEntry) × Nat)
          = (r, tbl', nx') := by
        rw [probeCreate, hslot] at heq
        exact heq
      simp only [Prod.mk.injEq] at heq'
      exact Or.inl ⟨heq'.1.symm, heq'.2.1.symm, heq'.2.2.symm⟩
    · -- inactive slot: acquired
      have heq' : ((next, setNth tbl ((start + i) % tbl.length) (some ⟨key, next⟩), next + 1)
          : Nat × List (Option SymbolEntry) × Nat) = (r, tbl', nx') := by
        rw [probeCreate, hslot] at heq
        exact heq
      simp only [Prod.mk.injEq] at heq'
      obtain ⟨hr, htbl, hnx⟩ := heq'
      have hidx : (start + i) % tbl.length < tbl.length := nth_lt_length hslot
      have hlen' : tbl'.length = tbl.length := by
        rw [← htbl]
        exact length_setNth _ tbl _
      have hnth : nth tbl' ((start + i) % tbl.length) = some (some ⟨key, next⟩) := by
        rw [← htbl]
        exact nth_setNth_eq _ tbl _ hidx
      refine Or.inr ⟨?_, ?_, hlen', ?_⟩
      · rw [probeFind, hlen', hnth]
        simp [hr]
      · rw [probeCreate, hlen', hnth]
        simp [hr, hnx]
      · intro j hj
        rw [← htbl]
        exact nth_setNth_ne _ tbl _ _
          (Ne.symm (probe_idx_ne start tbl.length j i hj (by omega)))
    · -- active slot
      have heq' : (if e.key = key then (e.index, tbl, next)
          else probeCreate tbl next key start f (i + 1)) = (r, tbl', nx') := by
        rw [probeCreate, hslot] at heq
        exact heq
      by_cases he : e.key = key
      · rw [if_pos he] at heq'
        simp only [Prod.mk.injEq] at heq'
        obtain ⟨hr, htbl, hnx⟩ := heq'
        subst hr
        subst htbl
        subst hnx
        refine Or.inr ⟨?_, ?_, rfl, fun j _ => rfl⟩
        · rw [probeFind, hslot]
          simp [he]
        · rw [probeCreate, hslot]
          simp [he]
      · rw [if_neg he] at heq'
        rcases ih (i + 1) r tbl' nx' (by omega) heq' with hL | ⟨hf, hc, hlen', hpres⟩
        · exact Or.inl hL
        · have hslot' : nth tbl' ((start + i) % tbl.length) = some (some e) := by
            rw [hpres i (by omega), hslot]
          refine Or.inr ⟨?_, ?_, hlen', fun j hj => hpres j (by omega)⟩
          · rw [probeFind, hlen', hslot']
            simp only [he, if_false, ite_false]
            exact hf
          · rw [probeCreate, hlen', hslot']
            simp only [he, if_false, ite_false]
            exact hc

/-- API-level consequence: a successful `getOrCreateIndex` is immediately
visible to `getIndex` of the same symbol and stable under repetition. -/
theorem getOrCreate_found (S : SymbolIndex) (hashFn : String → Nat) (s : String)
    (h : (getOrCreateIndex S hashFn s).fst ≠ INVALID_ID) :
    getIndex (getOrCreateIndex S hashFn s).snd hashFn s = (getOrCreateIndex S hashFn s).fst ∧
    getOrCreateIndex (getOrCreateIndex S hashFn s).snd hashFn s =
      ((getOrCreateIndex S hashFn s).fst, (getOrCreateIndex S hashFn s).snd) ∧
    (getOrCreateIndex S hashFn s).snd.table.length = S.table.length := by
  rcases hpc : probeCreate S.table S.nextIndex (symKey s) (hashFn s % S.table.length)
      S.table.length 0 with ⟨r, tbl', nx'⟩
  have hg : getOrCreateIndex S hashFn s = (r, ⟨tbl', nx'⟩) := by
    unfold getOrCreateIndex
    rw [hpc]
  rw [hg] at h ⊢
  rcases probeCreate_spec S.table S.nextIndex (symKey s) (hashFn s % S.table.length)
      S.table.length 0 r tbl' nx' (by omega) hpc with ⟨hL, -, -⟩ | ⟨hf, hc, hlen, -⟩
  · exact absurd hL h
  · refine ⟨?_, ?_, hlen⟩
    · show (match probeFind tbl' (symKey s) (hashFn s % tbl'.length) tbl'.length 0 with
        | none => INVALID_ID
        | some i => i) = r
      rw [hlen, hf]
    · show ((probeCreate tbl' nx' (symKey s) (hashFn s % tbl'.length) tbl'.length 0).1,
        (⟨(probeCreate tbl' nx' (symKey s) (hashFn s % tbl'.length) tbl'.length 0).2.1,
          (probeCreate tbl' nx' (symKey s) (hashFn s % tbl'.length) tbl'.length 0).2.2⟩ :
          SymbolIndex)) = ((r, ⟨tbl', nx'⟩) : Nat × SymbolIndex)
      rw [hlen, hc]

/-- Unfolding of a successful `getMarketData` given the looked-up index and
the snapshot stored there. -/
theorem getMarketData_fst (st : MarketDataStore) (hashFn : String → Nat) (s : String)
    (idx : Nat) (snap : MarketDataSnapshot)
    (hgi : getIndex st.symbolIndex hashFn s = idx)
    (hlt : idx < st.marketData.length)
    (hnth : nth st.marketData idx = some snap)
    (hvalid : snap.isValid = true) :
    (getMarketData st hashFn s).fst = some (readTuple snap) := by
  rw [getMarketData, hgi, hnth]
  rw [if_neg (show ¬ idx ≥ st.marketData.length by omega)]
  simp only [Option.getD_some]
  rw [hvalid]
  rw [if_neg (show ¬ (true = false) by decide)]

/-- A successful `updateMarketData` means the interned index was in range. -/
theorem update_fst_true {st : MarketDataStore} {hashFn : String → Nat}
    {now : Nat} {s : String} {bid ask last : Rat} {vol : Int}
    (h : (updateMarketData st hashFn now s bid ask last vol).fst = true) :
    (getOrCreateIndex st.symbolIndex hashFn s).fst < st.marketData.length := by
  by_cases hge : (getOrCreateIndex st.symbolIndex hashFn s).fst ≥ st.marketData.length
  · rw [updateMarketData, if_pos hge] at h
    simp at h
  · omega

/-- Unfolding of a successful `updateMarketData`. -/
theorem updateMarketData_eq (st : MarketDataStore) (hashFn : String → Nat)
    (now : Nat) (s : String) (bid ask last : Rat) (vol : Int)
    (hlt : (getOrCreateIndex st.symbolIndex hashFn s).fst < st.marketData.length) :
    updateMarketData st hashFn now s bid ask last vol =
      (true,
       { st with
         symbolIndex := (getOrCreateIndex st.symbolIndex hashFn s).snd,
         marketData :=
           setNth st.marketData (getOrCreateIndex st.symbolIndex hashFn s).fst
             (mkSnapshot bid ask last vol now
               ((nth st.marketData (getOrCreateIndex st.symbolIndex hashFn s).fst).getD
                 {}).sequenceNumber),
         totalUpdates := st.totalUpdates + 1 }) := by
  rw [updateMarketData, if_neg (show ¬ _ ≥ _ by omega)]

/-- After a successful update of `s`, an immediate read of `s` returns
exactly the written fields; the store keeps its shape, and a further update
of `s` succeeds again. -/
theorem read_after_update (st : MarketDataStore) (hashFn : String → Nat) (s : String)
    (now : Nat) (bid ask last : Rat) (vol : Int)
    (hsz : st.symbolIndex.table.length = st.marketData.length)
    (hbound : st.marketData.length ≤ INVALID_ID)
    (h1 : (updateMarketData st hashFn now s bid ask last vol).fst = true) :
    (getMarketData (updateMarketData st hashFn now s bid ask last vol).snd hashFn s).fst =
      some (bid, ask, last, ask - bid, vol, now) ∧
    (updateMarketData st hashFn now s bid ask last vol).snd.symbolIndex.table.length =
      st.symbolIndex.table.length ∧
    (updateMarketData st hashFn now s bid ask last vol).snd.marketData.length =
      st.marketData.length ∧
    ∀ (now' : Nat) (b' a' l' : Rat) (v' : Int),
      (updateMarketData (updateMarketData st hashFn now s bid ask last vol).snd
        hashFn now' s b' a' l' v').fst = true := by
  have hlt := update_fst_true h1
  have hne : (getOrCreateIndex st.symbolIndex hashFn s).fst ≠ INVALID_ID := by omega
  obtain ⟨hfind, hre, hlen⟩ := getOrCreate_found st.symbolIndex hashFn s hne
  have hu := updateMarketData_eq st hashFn now s bid ask last vol hlt
  have hsl : (updateMarketData st hashFn now s bid ask last vol).snd.symbolIndex.table.length
      = st.symbolIndex.table.length := by
    rw [hu]
    exact hlen
  have hml : (updateMarketData st hashFn now s bid ask last vol).snd.marketData.length
      = st.marketData.length := by
    rw [hu]
    exact length_setNth _ st.marketData _
  have hgi : getIndex (updateMarketData st hashFn now s bid ask last vol).snd.symbolIndex
      hashFn s = (getOrCreateIndex st.symbolIndex hashFn s).fst := by
    rw [hu]
    exact hfind
  have hgoc2 : getOrCreateIndex
      (updateMarketData st hashFn now s bid ask last vol).snd.symbolIndex hashFn s =
      ((getOrCreateIndex st.symbolIndex hashFn s).fst,
       (getOrCreateIndex st.symbolIndex hashFn s).snd) := by
    rw [hu]
    exact hre
  have hnth : nth (updateMarketData st hashFn now s bid ask last vol).snd.marketData
      (getOrCreateIndex st.symbolIndex hashFn s).fst =
      some (mkSnapshot bid ask last vol now
        ((nth st.marketData (getOrCreateIndex st.symbolIndex hashFn s).fst).getD
          {}).sequenceNumber) := by
    rw [hu]
    exact nth_setNth_eq _ st.marketData _ hlt
  refine ⟨?_, hsl, hml, ?_⟩
  · exact getMarketData_fst _ hashFn s _ _ hgi (by omega) hnth rfl
  · intro now' b' a' l' v'
    have hcond : ¬ ((getOrCreateIndex
        (updateMarketData st hashFn now s bid ask last vol).snd.symbolIndex hashFn s).fst ≥
        (updateMarketData st hashFn now s bid ask last vol).snd.marketData.length) := by
      simp only [hgoc2, hml]
      omega
    rw [updateMarketData, if_neg hcond]

/-- On a fresh index the very first probed slot is free, so `getOrCreateIndex`
acquires it: it stores the truncated key there and returns index `0`. -/
theorem getOrCreateIndex_fresh (n : Nat) (hn : 0 < n) (hashFn : String → Nat)
    (s : String) :
    getOrCreateIndex (mkSymbolIndex n) hashFn s =
      (0, ⟨setNth (List.replicate n none) (hashFn s % n) (some ⟨symKey s, 0⟩), 1⟩) := by
  obtain ⟨m, rfl⟩ : ∃ m, n = m + 1 := ⟨n - 1, by omega⟩
  have hstart : hashFn s % (m + 1) < m + 1 := Nat.mod_lt _ hn
  have harg : (hashFn s % (m + 1) + 0) % (m + 1) = hashFn s % (m + 1) :=
    Nat.mod_eq_of_lt hstart
  have hpc : probeCreate (List.replicate (m + 1) none) 0 (symKey s)
      (hashFn s % (m + 1)) (m + 1) 0 =
      (0, setNth (List.replicate (m + 1) none) (hashFn s % (m + 1))
        (some ⟨symKey s, 0⟩), 1) := by
    rw [probeCreate, List.length_replicate, harg, nth_replicate _ _ _ hstart]
  have hmk1 : (mkSymbolIndex (m + 1)).table = List.replicate (m + 1) none := rfl
  have hmk2 : (mkSymbolIndex (m + 1)).nextIndex = 0 := rfl
  rw [getOrCreateIndex, hmk1, hmk2, List.length_replicate, hpc]

/-- `getIndex` unfolding from a computed `probeFind` result. -/
theorem getIndex_eq_of_probeFind {S : SymbolIndex} {hashFn : String → Nat}
    {s : String} {r : Nat}
    (h : probeFind S.table (symKey s) (hashFn s % S.table.length) S.table.length 0 = some r) :
    getIndex S hashFn s = r := by
  rw [getIndex, h]

/-- If every active entry of the table matches `key` and carries index `r`
(in particular when the table holds exactly one active entry), then the
`getIndex` probe from any start returns `r` as soon as some active entry is
within reach of the probe window. -/
theorem probeFind_unique (tbl : List (Option SymbolEntry)) (key : List Char) (r : Nat)
    (huni : ∀ p e, nth tbl p = some (some e) → e.key = key ∧ e.index = r) :
    ∀ (fuel i start : Nat),
      (∃ i0, i ≤ i0 ∧ i0 < i + fuel ∧
        ∃ e, nth tbl ((start + i0) % tbl.length) = some (some e)) →
      probeFind tbl key start fuel i = some r := by
  intro fuel
  induction fuel with
  | zero =>
    rintro i start ⟨i0, h1, h2, -⟩
    omega
  | succ f ih =>
    rintro i start ⟨i0, h1, h2, e0, he0⟩
    rcases hslot : nth tbl ((start + i) % tbl.length) with _ | (_ | e)
    · have hne0 : i0 ≠ i := by
        intro hcon
        rw [hcon, hslot] at he0
        cases he0
      rw [probeFind, hslot]
      exact ih (i + 1) start ⟨i0, by omega, by omega, e0, he0⟩
    · have hne0 : i0 ≠ i := by
        intro hcon
        rw [hcon, hslot] at he0
        cases he0
      rw [probeFind, hslot]
      exact ih (i + 1) start ⟨i0, by omega, by omega, e0, he0⟩
    · obtain ⟨hk, hr⟩ := huni _ _ hslot
      rw [probeFind, hslot]
      simp [hk, hr]

/-! ### Claims C7 and C9 -/

/-- C7, counterexample.  The 9-byte symbol `"ABCDEFGHI"` is not rejected:
on the fresh `MAX_SYMBOLS`-slot index (with a hash placing it at slot 0,
legitimate since `std::hash` is implementation-defined) `getOrCreateIndex`
returns the valid id `0`, not `INVALID_ID`, and the slot stores the key
truncated to the 7 bytes `"ABCDEFG"`. -/
theorem C7_counterexample :
    ("ABCDEFGHI".length > 8) ∧
    (getOrCreateIndex (mkSymbolIndex MAX_SYMBOLS) (fun _ => 0) "ABCDEFGHI").fst ≠
      INVALID_ID ∧
    nth (getOrCreateIndex (mkSymbolIndex MAX_SYMBOLS) (fun _ => 0) "ABCDEFGHI").snd.table
      0 = some (some ⟨"ABCDEFG".data, 0⟩) := by
  have h0 : (0 : Nat) < MAX_SYMBOLS := by decide
  have hfresh := getOrCreateIndex_fresh MAX_SYMBOLS h0 (fun _ => 0) "ABCDEFGHI"
  rw [hfresh]
  refine ⟨by decide, by decide, by decide⟩

/-- C7 (amended): a symbol longer than 8 bytes is NOT rejected.  On an index
with a free probe slot (e.g. the fresh one), `getOrCreateIndex` accepts it,
returning a valid id, and silently stores the key truncated to its first
`SYMBOL_LENGTH − 1 = 7` bytes; `INVALID_ID` is returned only when the table
is full. -/
theorem C7_amended (s : String) (hashFn : String → Nat) (hlong : s.length > 8) :
    (getOrCreateIndex (mkSymbolIndex MAX_SYMBOLS) hashFn s).fst = 0 ∧
    (getOrCreateIndex (mkSymbolIndex MAX_SYMBOLS) hashFn s).fst ≠ INVALID_ID ∧
    nth (getOrCreateIndex (mkSymbolIndex MAX_SYMBOLS) hashFn s).snd.table
      (hashFn s % MAX_SYMBOLS) = some (some ⟨symKey s, 0⟩) ∧
    (symKey s).length = 7 := by
  have h0 : (0 : Nat) < MAX_SYMBOLS := by decide
  have hfresh := getOrCreateIndex_fresh MAX_SYMBOLS h0 hashFn s
  rw [hfresh]
  refine ⟨rfl, by simp [INVALID_ID], ?_, ?_⟩
  · exact nth_setNth_eq _ _ _ (by rw [List.length_replicate]; exact Nat.mod_lt _ h0)
  · have hdl : s.data.length = s.length := rfl
    unfold symKey SYMBOL_LENGTH
    rw [List.length_take]
    omega

/-- C7 (amended), witness: the 9-byte symbol `"ABCDEFGHI"` under an arbitrary
concrete hash. -/
theorem C7_amended_witness :
    (getOrCreateIndex (mkSymbolIndex MAX_SYMBOLS) (fun _ => 1234) "ABCDEFGHI").fst = 0 ∧
    (getOrCreateIndex (mkSymbolIndex MAX_SYMBOLS) (fun _ => 1234) "ABCDEFGHI").fst ≠
      INVALID_ID ∧
    nth (getOrCreateIndex (mkSymbolIndex MAX_SYMBOLS) (fun _ => 1234) "ABCDEFGHI").snd.table
      ((fun _ => 1234) "ABCDEFGHI" % MAX_SYMBOLS) = some (some ⟨symKey "ABCDEFGHI", 0⟩) ∧
    (symKey "ABCDEFGHI").length = 7 :=
  C7_amended "ABCDEFGHI" (fun _ => 1234) (by decide)

/-- C9: two distinct symbols agreeing on their first 7 bytes alias.  After a
fresh store's first update under symbol `s1`, `getIndex` resolves the other
symbol `s2` to the same index (the stored 7-byte key matches both), so a
read of `s2` succeeds and observes exactly the data written for `s1`.  This
holds for every hash function (`std::hash` is implementation-defined). -/
theorem C9_seven_byte_alias (s1 s2 : String) (hashFn : String → Nat)
    (now : Nat) (bid ask last : Rat) (vol : Int)
    (hne : s1 ≠ s2) (hkey : symKey s1 = symKey s2) :
    (updateMarketData (mkMarketDataStore MAX_SYMBOLS) hashFn now s1 bid ask last vol).fst
      = true ∧
    getIndex (updateMarketData (mkMarketDataStore MAX_SYMBOLS) hashFn now s1
        bid ask last vol).snd.symbolIndex hashFn s2 =
      getIndex (updateMarketData (mkMarketDataStore MAX_SYMBOLS) hashFn now s1
        bid ask last vol).snd.symbolIndex hashFn s1 ∧
    (getMarketData (updateMarketData (mkMarketDataStore MAX_SYMBOLS) hashFn now s1
        bid ask last vol).snd hashFn s2).fst =
      some (bid, ask, last, ask - bid, vol, now) := by
  have h0 : (0 : Nat) < MAX_SYMBOLS := by decide
  have hslot1lt : hashFn s1 % MAX_SYMBOLS < MAX_SYMBOLS := Nat.mod_lt _ h0
  have hfresh := getOrCreateIndex_fresh MAX_SYMBOLS h0 hashFn s1
  set tbl1 := setNth (List.replicate MAX_SYMBOLS (none : Option SymbolEntry))
    (hashFn s1 % MAX_SYMBOLS) (some (⟨symKey s1, 0⟩ : SymbolEntry)) with htbl1
  have htlen : tbl1.length = MAX_SYMBOLS := by
    rw [htbl1, length_setNth, List.length_replicate]
  have hsi0 : (mkMarketDataStore MAX_SYMBOLS).symbolIndex = mkSymbolIndex MAX_SYMBOLS := rfl
  have hgoc : getOrCreateIndex (mkMarketDataStore MAX_SYMBOLS).symbolIndex hashFn s1 =
      (0, ⟨tbl1, 1⟩) := by
    rw [hsi0]
    exact hfresh
  have hmdlen0 : (mkMarketDataStore MAX_SYMBOLS).marketData.length = MAX_SYMBOLS :=
    List.length_replicate _ _
  have hlt : (getOrCreateIndex (mkMarketDataStore MAX_SYMBOLS).symbolIndex hashFn s1).fst <
      (mkMarketDataStore MAX_SYMBOLS).marketData.length := by
    rw [hgoc, hmdlen0]
    exact h0
  have hu := updateMarketData_eq (mkMarketDataStore MAX_SYMBOLS) hashFn now s1
    bid ask last vol hlt
  have hsym1 : (updateMarketData (mkMarketDataStore MAX_SYMBOLS) hashFn now s1
      bid ask last vol).snd.symbolIndex = ⟨tbl1, 1⟩ := by
    rw [hu, hgoc]
  have hmd1 : (updateMarketData (mkMarketDataStore MAX_SYMBOLS) hashFn now s1
      bid ask last vol).snd.marketData =
      setNth (List.replicate MAX_SYMBOLS {}) 0 (mkSnapshot bid ask last vol now 0) := by
    rw [hu, hgoc]
    rfl
  have hslotentry : nth tbl1 (hashFn s1 % MAX_SYMBOLS) = some (some ⟨symKey s1, 0⟩) := by
    rw [htbl1]
    exact nth_setNth_eq _ _ _ (by rw [List.length_replicate]; exact hslot1lt)
  have hcov : ∀ st0, st0 < MAX_SYMBOLS → ∃ i0, 0 ≤ i0 ∧ i0 < 0 + tbl1.length ∧
      ∃ e, nth tbl1 ((st0 + i0) % tbl1.length) = some (some e) := by
    intro st0 hst0
    by_cases hcase : st0 ≤ hashFn s1 % MAX_SYMBOLS
    · refine ⟨hashFn s1 % MAX_SYMBOLS - st0, by omega,
        by rw [Nat.zero_add, htlen]; omega, ⟨symKey s1, 0⟩, ?_⟩
      rw [htlen, Nat.add_sub_cancel' hcase, Nat.mod_eq_of_lt hslot1lt]
      exact hslotentry
    · refine ⟨MAX_SYMBOLS + hashFn s1 % MAX_SYMBOLS - st0, by omega,
        by rw [Nat.zero_add, htlen]; omega, ⟨symKey s1, 0⟩, ?_⟩
      rw [htlen]
      have harith : st0 + (MAX_SYMBOLS + hashFn s1 % MAX_SYMBOLS - st0) =
          MAX_SYMBOLS + hashFn s1 % MAX_SYMBOLS := by omega
      rw [harith, Nat.add_mod_left, Nat.mod_eq_of_lt hslot1lt]
      exact hslotentry
  have hfindK : ∀ (s' : String), symKey s1 = symKey s' →
      getIndex (⟨tbl1, 1⟩ : SymbolIndex) hashFn s' = 0 := by
    intro s' hk
    have huni : ∀ p e, nth tbl1 p = some (some e) → e.key = symKey s' ∧ e.index = 0 := by
      intro p e hp
      by_cases hps : p = hashFn s1 % MAX_SYMBOLS
      · rw [hps, hslotentry] at hp
        simp only [Option.some.injEq] at hp
        rw [← hp]
        exact ⟨hk, rfl⟩
      · rw [htbl1, nth_setNth_ne _ _ _ _ (fun hcon => hps hcon.symm)] at hp
        by_cases hplt : p < MAX_SYMBOLS
        · rw [nth_replicate _ _ _ hplt] at hp
          cases hp
        · rw [nth_eq_none_of_ge _ _ (by rw [List.length_replicate]; omega)] at hp
          cases hp
    have hst0 : hashFn s' % tbl1.length < MAX_SYMBOLS := by
      rw [htlen]
      exact Nat.mod_lt _ h0
    have hpf := probeFind_unique tbl1 (symKey s') 0 huni tbl1.length 0
      (hashFn s' % tbl1.length) (hcov (hashFn s' % tbl1.length) hst0)
    show (match probeFind tbl1 (symKey s') (hashFn s' % tbl1.length) tbl1.length 0 with
      | none => INVALID_ID
      | some i => i) = 0
    rw [hpf]
  have hfst : (updateMarketData (mkMarketDataStore MAX_SYMBOLS) hashFn now s1
      bid ask last vol).fst = true := by
    rw [hu]
  have hmd1len : (updateMarketData (mkMarketDataStore MAX_SYMBOLS) hashFn now s1
      bid ask last vol).snd.marketData.length = MAX_SYMBOLS := by
    rw [hmd1, length_setNth, List.length_replicate]
  refine ⟨hfst, ?_, ?_⟩
  · rw [hsym1, hfindK s2 hkey, hfindK s1 rfl]
  · have hgiX : getIndex (updateMarketData (mkMarketDataStore MAX_SYMBOLS) hashFn now s1
        bid ask last vol).snd.symbolIndex hashFn s2 = 0 := by
      rw [hsym1]
      exact hfindK s2 hkey
    have hnthX : nth (updateMarketData (mkMarketDataStore MAX_SYMBOLS) hashFn now s1
        bid ask last vol).snd.marketData 0 =
        some (mkSnapshot bid ask last vol now 0) := by
      rw [hmd1]
      exact nth_setNth_eq _ _ _ (by rw [List.length_replicate]; exact h0)
    exact getMarketData_fst _ hashFn s2 0 _ hgiX (by rw [hmd1len]; exact h0) hnthX rfl

/-- C9, witness: the 8-byte symbols `"ABCDEFG1"` and `"ABCDEFG2"`, differing
only in their last byte, on the fresh store. -/
theorem C9_seven_byte_alias_witness :
    (updateMarketData (mkMarketDataStore MAX_SYMBOLS) (fun _ => 7) 3 "ABCDEFG1"
      11 12 13 4).fst = true ∧
    getIndex (updateMarketData (mkMarketDataStore MAX_SYMBOLS) (fun _ => 7) 3 "ABCDEFG1"
        11 12 13 4).snd.symbolIndex (fun _ => 7) "ABCDEFG2" =
      getIndex (updateMarketData (mkMarketDataStore MAX_SYMBOLS) (fun _ => 7) 3 "ABCDEFG1"
        11 12 13 4).snd.symbolIndex (fun _ => 7) "ABCDEFG1" ∧
    (getMarketData (updateMarketData (mkMarketDataStore MAX_SYMBOLS) (fun _ => 7) 3
        "ABCDEFG1" 11 12 13 4).snd (fun _ => 7) "ABCDEFG2").fst =
      some (11, 12, 13, 12 - 11, 4, 3) :=
  C9_seven_byte_alias "ABCDEFG1" "ABCDEFG2" (fun _ => 7) 3 11 12 13 4
    (by decide) (by decide)

/-! ### Claims C1-C5 and C10 -/

/-- C1, counterexample.  The claim says matching repeatedly consumes resting
liquidity, reduces both quantities, removes exhausted makers and emptied
levels, and stops only when the taker is filled or nothing crosses.  Concrete
run: a resting SELL 2@10 and an incoming BUY 5@10.  The source emits a single
trade of quantity 2 and leaves the book untouched: the maker still rests with
its original quantity 2 at a level that still crosses the taker's price, yet
the taker (quantity 5) was not fully filled. -/
theorem C1_counterexample :
    ((matchOrder (addOrder emptyBook ⟨"s1", "u1", "SYM", "SELL", 2, 10⟩).snd
        ⟨"b1", "u2", "SYM", "BUY", 5, 10⟩).fst.map Trade.quantity = [2]) ∧
    ((matchOrder (addOrder emptyBook ⟨"s1", "u1", "SYM", "SELL", 2, 10⟩).snd
        ⟨"b1", "u2", "SYM", "BUY", 5, 10⟩).fst.map Trade.price = [10]) ∧
    (matchOrder (addOrder emptyBook ⟨"s1", "u1", "SYM", "SELL", 2, 10⟩).snd
        ⟨"b1", "u2", "SYM", "BUY", 5, 10⟩).snd.sellOrders =
      [((10 : Rat), [⟨"s1", "u1", "SYM", "SELL", 2, 10⟩])] ∧
    (2 : Int) ≠ 5 ∧ (10 : Rat) ≥ 10 := by
  decide

/-- C1 (amended): `matchOrder` performs at most one match step: it emits at
most one trade, and any emitted trade is against the front of the best
crossing opposing level (BUY crosses when taker price ≥ best ask level price,
SELL when taker price ≤ best bid level price) at the maker level's price for
`min` of the taker's and the front maker's quantities; the resting sides and
the id map are left completely unchanged (no quantity reduction, no maker or
level removal). -/
theorem C1_amended (b : OrderBook) (o : Order) :
    (matchOrder b o).fst.length ≤ 1 ∧
    (matchOrder b o).snd.buyOrders = b.buyOrders ∧
    (matchOrder b o).snd.sellOrders = b.sellOrders ∧
    (matchOrder b o).snd.orders = b.orders ∧
    ∀ t ∈ (matchOrder b o).fst,
      (o.side = "BUY" ∧ ∃ lvl rest, b.sellOrders = lvl :: rest ∧
        o.price ≥ lvl.1 ∧ t.price = lvl.1 ∧
        t.quantity = min o.quantity (frontQty lvl.2)) ∨
      (o.side = "SELL" ∧ ∃ lvl rest, b.buyOrders = lvl :: rest ∧
        o.price ≤ lvl.1 ∧ t.price = lvl.1 ∧
        t.quantity = min o.quantity (frontQty lvl.2)) := by
  obtain ⟨h1, h2, h3, -, -⟩ := matchOrder_snd b o
  refine ⟨by rw [matchOrder_fst]; exact matchTrades_length b o, h1, h2, h3, ?_⟩
  intro t ht
  rw [matchOrder_fst] at ht
  rcases mem_matchTrades ht with ⟨hside, hmem⟩ | ⟨hside, hmem⟩
  · obtain ⟨lvl, rest, hs, hp, hteq⟩ := mem_matchBuyOrder hmem
    exact Or.inl ⟨hside, lvl, rest, hs, hp, by rw [hteq]; rfl, by rw [hteq]; rfl⟩
  · obtain ⟨lvl, rest, hs, hp, hteq⟩ := mem_matchSellOrder hmem
    exact Or.inr ⟨hside, lvl, rest, hs, hp, by rw [hteq]; rfl, by rw [hteq]; rfl⟩

/-- C2, counterexample.  With a resting SELL 3@10 and an incoming BUY 5@10
the source emits one trade of quantity 3 but never decrements the taker's
quantity (the order object is left at its original 5), so
`sum(trade.quantity) + remaining (= 5) = 8 ≠ 5 = original`, refuting the
volume-conservation conjunct. -/
theorem C2_counterexample :
    ((matchOrder (addOrder emptyBook ⟨"s2", "u1", "SYM", "SELL", 3, 10⟩).snd
        ⟨"b2", "u2", "SYM", "BUY", 5, 10⟩).fst.map Trade.quantity).sum = 3 ∧
    (⟨"b2", "u2", "SYM", "BUY", 5, 10⟩ : Order).quantity = 5 ∧
    (3 : Int) + 5 ≠ 5 := by
  decide

/-- C2 (amended): every trade emitted by `matchOrder` is priced at the best
resting opposing level's price, and has positive quantity provided the taker
and the front maker of every level have positive quantity; taker volume is
NOT conserved — matching leaves the taker's quantity unchanged, so the sum of
trade quantities plus the remaining quantity exceeds the original whenever a
trade occurs. -/
theorem C2_amended (b : OrderBook) (o : Order)
    (hsell : ∀ lvl ∈ b.sellOrders, 0 < frontQty lvl.2)
    (hbuy : ∀ lvl ∈ b.buyOrders, 0 < frontQty lvl.2)
    (hq : 0 < o.quantity) :
    ∀ t ∈ (matchOrder b o).fst,
      0 < t.quantity ∧
      ((o.side = "BUY" ∧ ∃ lvl rest, b.sellOrders = lvl :: rest ∧ t.price = lvl.1) ∨
       (o.side = "SELL" ∧ ∃ lvl rest, b.buyOrders = lvl :: rest ∧ t.price = lvl.1)) := by
  intro t ht
  rw [matchOrder_fst] at ht
  rcases mem_matchTrades ht with ⟨hside, hmem⟩ | ⟨hside, hmem⟩
  · obtain ⟨lvl, rest, hs, hp, hteq⟩ := mem_matchBuyOrder hmem
    have hpos : 0 < frontQty lvl.2 := hsell lvl (by rw [hs]; exact List.mem_cons_self _ _)
    refine ⟨by rw [hteq]; exact lt_min hq hpos, Or.inl ⟨hside, lvl, rest, hs, by rw [hteq]; rfl⟩⟩
  · obtain ⟨lvl, rest, hs, hp, hteq⟩ := mem_matchSellOrder hmem
    have hpos : 0 < frontQty lvl.2 := hbuy lvl (by rw [hs]; exact List.mem_cons_self _ _)
    refine ⟨by rw [hteq]; exact lt_min hq hpos, Or.inr ⟨hside, lvl, rest, hs, by rw [hteq]; rfl⟩⟩

/-- C2 (amended), witness: a resting SELL 3@10 with positive quantities and a
BUY 5@10 taker. -/
theorem C2_amended_witness :
    (∀ lvl ∈ (addOrder emptyBook ⟨"s2", "u1", "SYM", "SELL", 3, 10⟩).snd.sellOrders,
        0 < frontQty lvl.2) ∧
    ∀ t ∈ (matchOrder (addOrder emptyBook ⟨"s2", "u1", "SYM", "SELL", 3, 10⟩).snd
        ⟨"b2", "u2", "SYM", "BUY", 5, 10⟩).fst,
      0 < t.quantity ∧
      (((⟨"b2", "u2", "SYM", "BUY", 5, 10⟩ : Order).side = "BUY" ∧
        ∃ lvl rest,
          (addOrder emptyBook ⟨"s2", "u1", "SYM", "SELL", 3, 10⟩).snd.sellOrders =
            lvl :: rest ∧ t.price = lvl.1) ∨
       ((⟨"b2", "u2", "SYM", "BUY", 5, 10⟩ : Order).side = "SELL" ∧
        ∃ lvl rest,
          (addOrder emptyBook ⟨"s2", "u1", "SYM", "SELL", 3, 10⟩).snd.buyOrders =
            lvl :: rest ∧ t.price = lvl.1)) :=
  ⟨by decide,
   C2_amended _ _ (by decide) (by decide) (by decide)⟩

/-- C3, counterexample.  `addOrder` inserts without matching and `matchOrder`
never mutates the sides, so the sequence add BUY 1@10, add SELL 1@5, then a
`matchOrder` call leaves a resting book whose best bid (10) is ≥ its best ask
(5) with both sides non-empty: the book rests crossed. -/
theorem C3_counterexample :
    bestBidPrice (matchOrder (addOrder (addOrder emptyBook
        ⟨"b3", "u1", "SYM", "BUY", 1, 10⟩).snd
        ⟨"s3", "u2", "SYM", "SELL", 1, 5⟩).snd
        ⟨"t3", "u3", "SYM", "BUY", 1, 5⟩).snd = some 10 ∧
    bestAskPrice (matchOrder (addOrder (addOrder emptyBook
        ⟨"b3", "u1", "SYM", "BUY", 1, 10⟩).snd
        ⟨"s3", "u2", "SYM", "SELL", 1, 5⟩).snd
        ⟨"t3", "u3", "SYM", "BUY", 1, 5⟩).snd = some 5 ∧
    ¬ (10 : Rat) < 5 := by
  decide

/-- C3 (amended): the no-crossed-book invariant does not hold.  What is true
of the source is that `matchOrder` leaves both resting sides (hence the best
bid and ask of the resting structure) exactly as they were, so any crossing
introduced by `addOrder` — which inserts without matching — persists at
rest. -/
theorem C3_amended (b : OrderBook) (o : Order) :
    bestBidPrice (matchOrder b o).snd = bestBidPrice b ∧
    bestAskPrice (matchOrder b o).snd = bestAskPrice b := by
  obtain ⟨h1, h2, -, -, -⟩ := matchOrder_snd b o
  unfold bestBidPrice bestAskPrice
  rw [h1, h2]
  exact ⟨rfl, rfl⟩

/-- C4, counterexample.  `addOrder` performs no validation: an order with
quantity −1 and price −2 is accepted (returns `true`) and inserted into the
BUY side, refuting the claim that non-positive quantity/price is rejected. -/
theorem C4_counterexample :
    (addOrder emptyBook ⟨"x1", "u1", "SYM", "BUY", -1, -2⟩).fst = true ∧
    (addOrder emptyBook ⟨"x1", "u1", "SYM", "BUY", -1, -2⟩).snd.buyOrders =
      [((-2 : Rat), [⟨"x1", "u1", "SYM", "BUY", -1, -2⟩])] := by
  decide

/-- C4 (amended): `addOrder` accepts every order unconditionally — it returns
`true` and records the order in the id-lookup map regardless of the sign of
its quantity or price. -/
theorem C4_amended (b : OrderBook) (o : Order) :
    (addOrder b o).fst = true ∧
    mapGet (addOrder b o).snd.orders o.orderId = some o := by
  refine ⟨rfl, ?_⟩
  show mapGet (sideInsert (storeOrder b o) o).orders o.orderId = some o
  rw [sideInsert_orders]
  exact mapGet_mapSet_self b.orders o.orderId o

/-- C5: `removeOrder` and `updateOrder` on an id that is not in the book
return `false` and leave the entire book state unchanged. -/
theorem C5_unknown_id (b : OrderBook) (o : Order)
    (h : mapGet b.orders o.orderId = none) :
    removeOrder b o.orderId = (false, b) ∧ updateOrder b o = (false, b) := by
  constructor
  · unfold removeOrder
    rw [h]
  · unfold updateOrder
    rw [h]

/-- C5, witness: removing/updating the id `"absent"` on the empty book. -/
theorem C5_unknown_id_witness :
    mapGet emptyBook.orders "absent" = none ∧
    (removeOrder emptyBook "absent" = (false, emptyBook) ∧
     updateOrder emptyBook ⟨"absent", "u", "SYM", "BUY", 1, 1⟩ = (false, emptyBook)) :=
  ⟨by decide, C5_unknown_id emptyBook ⟨"absent", "u", "SYM", "BUY", 1, 1⟩ (by decide)⟩

/-- C10: the cached best-ask atomic starts at `0.0` and `addOrder` combines
it with the incoming SELL price via `min`, so after adding a SELL at any
positive price to the fresh book `getBestAsk` still returns `0`, not the
price; and since `getSpread` requires both cached values to be positive it
returns `0` even once both sides hold resting orders. -/
theorem C10_best_ask_zero (o₁ o₂ : Order)
    (hs₁ : o₁.side = "SELL") (hp₁ : 0 < o₁.price)
    (hs₂ : o₂.side = "BUY") (hp₂ : 0 < o₂.price) :
    getBestAsk (addOrder emptyBook o₁).snd = 0 ∧
    getBestAsk (addOrder emptyBook o₁).snd ≠ o₁.price ∧
    getSpread (addOrder (addOrder emptyBook o₁).snd o₂).snd = 0 ∧
    (addOrder (addOrder emptyBook o₁).snd o₂).snd.buyOrders ≠ [] ∧
    (addOrder (addOrder emptyBook o₁).snd o₂).snd.sellOrders ≠ [] := by
  have hask : (addOrder emptyBook o₁).snd.bestAsk = 0 := by
    show (bumpCounters (sideInsert (storeOrder emptyBook o₁) o₁) o₁).bestAsk = 0
    rw [sideInsert_sell hs₁]
    exact min_eq_left hp₁.le
  have hsell : (addOrder emptyBook o₁).snd.sellOrders = [(o₁.price, [o₁])] := by
    show (bumpCounters (sideInsert (storeOrder emptyBook o₁) o₁) o₁).sellOrders = _
    rw [sideInsert_sell hs₁]
    rfl
  refine ⟨hask, ?_, ?_, ?_, ?_⟩
  · show (addOrder emptyBook o₁).snd.bestAsk ≠ o₁.price
    rw [hask]
    exact hp₁.ne
  · have hask₂ : (addOrder (addOrder emptyBook o₁).snd o₂).snd.bestAsk = 0 := by
      show (bumpCounters (sideInsert (storeOrder (addOrder emptyBook o₁).snd o₂) o₂) o₂).bestAsk = 0
      rw [sideInsert_buy hs₂]
      exact hask
    unfold getSpread
    rw [if_neg]
    intro hcon
    rw [hask₂] at hcon
    exact absurd hcon.2 (lt_irrefl 0)
  · show (bumpCounters (sideInsert (storeOrder (addOrder emptyBook o₁).snd o₂) o₂) o₂).buyOrders ≠ []
    rw [sideInsert_buy hs₂]
    exact levelAdd_ne_nil _ _ _ _
  · show (bumpCounters (sideInsert (storeOrder (addOrder emptyBook o₁).snd o₂) o₂) o₂).sellOrders ≠ []
    rw [sideInsert_buy hs₂]
    show (addOrder emptyBook o₁).snd.sellOrders ≠ []
    rw [hsell]
    simp

/-- C8: evaluation of the decoder at the claim's own envelope, whose five
numeric fields are quoted numeric strings.  The value scan of
`extractDouble` stops at any `"` character, so for a quoted value it stops
immediately at the opening quote, extracts the empty string, and `std::stod`
throws: the parse is marked invalid and every numeric field stays `0`,
contradicting the claimed `valid=true`, `bestBid=0.5`, `bestAsk=2`,
`lastPrice=1.5`.  (The code's own header comment documents the vendor's
quoted-value format and its dead `Remove quotes if present` branch shows the
intent to support it, so this is a defect of the scan loop.) -/
theorem C8_quoted_values_fail :
    (parseAlphaVantage "IBM"
        "\x7b\"Global Quote\":\x7b\"02. open\":\"1\",\"03. high\":\"2\",\"04. low\":\"0.5\",\"05. price\":\"1.5\",\"06. volume\":\"100\"\x7d\x7d").isValid
      = false ∧
    (parseAlphaVantage "IBM"
        "\x7b\"Global Quote\":\x7b\"02. open\":\"1\",\"03. high\":\"2\",\"04. low\":\"0.5\",\"05. price\":\"1.5\",\"06. volume\":\"100\"\x7d\x7d").bestBid
      = 0 ∧
    (parseAlphaVantage "IBM"
        "\x7b\"Global Quote\":\x7b\"02. open\":\"1\",\"03. high\":\"2\",\"04. low\":\"0.5\",\"05. price\":\"1.5\",\"06. volume\":\"100\"\x7d\x7d").bestAsk
      = 0 ∧
    (parseAlphaVantage "IBM"
        "\x7b\"Global Quote\":\x7b\"02. open\":\"1\",\"03. high\":\"2\",\"04. low\":\"0.5\",\"05. price\":\"1.5\",\"06. volume\":\"100\"\x7d\x7d").lastPrice
      = 0 := by
  decide

/-- C6: after a successful `updateMarketData` of a symbol, a read of that
symbol succeeds (for every hash function) and returns exactly the written
`bid`, `ask`, `lastPrice` and `volume`, with `spread = ask − bid` and
`timestamp` equal to the update's clock value; a second update with a later
clock also succeeds, and the timestamps returned by the successive reads are
non-decreasing (the store preserves the monotonicity of the clock).  The
size hypotheses state that the snapshot array and the symbol table have the
same length and that this length fits below `UINT32_MAX`, which holds for
the constructed store (both are `MAX_SYMBOLS = 10000`). -/
theorem C6_update_read (st : MarketDataStore) (hashFn : String → Nat) (s : String)
    (now1 now2 : Nat) (b1 a1 l1 : Rat) (v1 : Int) (b2 a2 l2 : Rat) (v2 : Int)
    (hsz : st.symbolIndex.table.length = st.marketData.length)
    (hbound : st.marketData.length ≤ INVALID_ID)
    (h1 : (updateMarketData st hashFn now1 s b1 a1 l1 v1).fst = true)
    (hmono : now1 ≤ now2) :
    (getMarketData (updateMarketData st hashFn now1 s b1 a1 l1 v1).snd hashFn s).fst =
      some (b1, a1, l1, a1 - b1, v1, now1) ∧
    (updateMarketData (updateMarketData st hashFn now1 s b1 a1 l1 v1).snd hashFn now2 s
      b2 a2 l2 v2).fst = true ∧
    (getMarketData (updateMarketData (updateMarketData st hashFn now1 s b1 a1 l1 v1).snd
      hashFn now2 s b2 a2 l2 v2).snd hashFn s).fst =
      some (b2, a2, l2, a2 - b2, v2, now2) ∧
    tupleTime (getMarketData (updateMarketData st hashFn now1 s b1 a1 l1 v1).snd
        hashFn s).fst ≤
      tupleTime (getMarketData (updateMarketData
        (updateMarketData st hashFn now1 s b1 a1 l1 v1).snd hashFn now2 s
        b2 a2 l2 v2).snd hashFn s).fst := by
  obtain ⟨hr1, hsl1, hml1, hnext⟩ := read_after_update st hashFn s now1 b1 a1 l1 v1 hsz hbound h1
  have h2 := hnext now2 b2 a2 l2 v2
  have hsz1 : (updateMarketData st hashFn now1 s b1 a1 l1 v1).snd.symbolIndex.table.length =
      (updateMarketData st hashFn now1 s b1 a1 l1 v1).snd.marketData.length := by
    rw [hsl1, hml1]
    exact hsz
  have hbound1 : (updateMarketData st hashFn now1 s b1 a1 l1 v1).snd.marketData.length ≤
      INVALID_ID := by
    rw [hml1]
    exact hbound
  obtain ⟨hr2, -, -, -⟩ := read_after_update _ hashFn s now2 b2 a2 l2 v2 hsz1 hbound1 h2
  refine ⟨hr1, h2, hr2, ?_⟩
  rw [hr1, hr2]
  simpa [tupleTime] using hmono

/-- C6, witness: a four-slot store (the theorem is size-generic; the source's
`MAX_SYMBOLS`-sized store satisfies the same size hypotheses), the
always-zero hash, symbol `"AAPL"`, clock values 1 then 2. -/
theorem C6_update_read_witness :
    (getMarketData (updateMarketData (mkMarketDataStore 4) (fun _ => 0) 1 "AAPL"
        101 102 103 5).snd (fun _ => 0) "AAPL").fst =
      some (101, 102, 103, 102 - 101, 5, 1) ∧
    (updateMarketData (updateMarketData (mkMarketDataStore 4) (fun _ => 0) 1 "AAPL"
        101 102 103 5).snd (fun _ => 0) 2 "AAPL" 201 202 203 6).fst = true ∧
    (getMarketData (updateMarketData (updateMarketData (mkMarketDataStore 4)
        (fun _ => 0) 1 "AAPL" 101 102 103 5).snd (fun _ => 0) 2 "AAPL"
        201 202 203 6).snd (fun _ => 0) "AAPL").fst =
      some (201, 202, 203, 202 - 201, 6, 2) ∧
    tupleTime (getMarketData (updateMarketData (mkMarketDataStore 4) (fun _ => 0)
        1 "AAPL" 101 102 103 5).snd (fun _ => 0) "AAPL").fst ≤
      tupleTime (getMarketData (updateMarketData (updateMarketData
        (mkMarketDataStore 4) (fun _ => 0) 1 "AAPL" 101 102 103 5).snd
        (fun _ => 0) 2 "AAPL" 201 202 203 6).snd (fun _ => 0) "AAPL").fst :=
  C6_update_read (mkMarketDataStore 4) (fun _ => 0) "AAPL" 1 2
    101 102 103 5 201 202 203 6 (by decide) (by decide) (by decide) (by decide)

/-- C10, witness: SELL 1@10 then BUY 1@7 on the fresh book. -/
theorem C10_best_ask_zero_witness :
    getBestAsk (addOrder emptyBook ⟨"s", "u", "SYM", "SELL", 1, 10⟩).snd = 0 ∧
    getBestAsk (addOrder emptyBook ⟨"s", "u", "SYM", "SELL", 1, 10⟩).snd ≠
      (⟨"s", "u", "SYM", "SELL", 1, 10⟩ : Order).price ∧
    getSpread (addOrder (addOrder emptyBook ⟨"s", "u", "SYM", "SELL", 1, 10⟩).snd
      ⟨"b", "u2", "SYM", "BUY", 1, 7⟩).snd = 0 ∧
    (addOrder (addOrder emptyBook ⟨"s", "u", "SYM", "SELL", 1, 10⟩).snd
      ⟨"b", "u2", "SYM", "BUY", 1, 7⟩).snd.buyOrders ≠ [] ∧
    (addOrder (addOrder emptyBook ⟨"s", "u", "SYM", "SELL", 1, 10⟩).snd
      ⟨"b", "u2", "SYM", "BUY", 1, 7⟩).snd.sellOrders ≠ [] :=
  C10_best_ask_zero _ _ (by decide) (by decide) (by decide) (by decide)

end Quantis
